import Mathlib

/-!
Verification of the microtonal step sequencer (src/js/main.js).

Shallow embedding conventions:
  * Frequencies are real numbers; audio-clock times and the tempo (bpm) are
    rationals, so the `60 / bpm` beat-period arithmetic is exact.
  * JavaScript class instances become structures; a mutating method becomes a
    function returning the updated structure (and, for the iterator getters
    `hasNext` / `next`, the pair of the returned value and the updated state).
  * `this.pitches[n]` and `this.seq[beat]` are array reads; an out-of-range
    read yields `undefined` in JavaScript and is modelled with `List.getD`
    and a default; every theorem below stays inside the in-range regime the
    spec demands of callers.
  * The `AudioContext` is an external collaborator: its clock is passed to
    `lookAheadAndSchedule` as the argument `now`, and each
    `createOscillator / start / stop` call sequence is recorded as one
    immutable `SoundEvent` value.  The trailing `setTimeout` re-arm is
    host-environment interaction, not part of the drain loop modelled here.
  * The source's `while` loops are embedded either by well-founded recursion
    on the cursor (`advanceIndex`, `activeFrom`) or with explicit fuel
    (`runIteratorAux`, `collectNotesAux`, `lookAheadAndScheduleAux`); the
    wrappers instantiate the fuel with a provably sufficient amount, and the
    lemmas show the characterizations hold for any sufficient fuel.
-/

namespace MicrotonalSequencer

/-- Embedding of `class Tuning` (src/js/main.js lines 9-40): an ordered list
of frequencies for the reference (4th) octave. -/
structure Tuning where
  pitches : List ℝ

/-- Embedding of the getter `Tuning.length`: the number of distinct pitches in
one octave. -/
def Tuning.length (t : Tuning) : ℕ :=
  t.pitches.length

/-- Embedding of `Tuning.getNote`: `this.pitches[n]` (an out-of-range read
gives `undefined` in the source; the model's default is irrelevant to the
in-range theorems below). -/
noncomputable def Tuning.getNote (t : Tuning) (n : ℕ) : ℝ :=
  t.pitches.getD n 0

/-- Embedding of `Tuning.getNoteInOctave`: frequency of `note` scaled into
`octave` by `Math.pow(2, octave - 4)`. -/
noncomputable def Tuning.getNoteInOctave (t : Tuning) (octave : ℤ) (note : ℕ) : ℝ :=
  (2 : ℝ) ^ (octave - 4) * t.getNote note

/-- Embedding of the getter `EDOTuning.ratio`: `Math.pow(2, 1 / divisions)`,
the ratio between adjacent notes of the EDO. -/
noncomputable def EDOTuning.ratio (divisions : ℕ) : ℝ :=
  (2 : ℝ) ^ ((1 : ℝ) / (divisions : ℝ))

/-- Embedding of the `EDOTuning` constructor: pushes
`referencePitch * Math.pow(this.ratio, i)` for `i = 0 .. divisions - 1`.
No validation of `divisions` is performed anywhere in the constructor. -/
noncomputable def EDOTuning (referencePitch : ℝ) (divisions : ℕ) : Tuning :=
  { pitches :=
      (List.range divisions).map
        (fun i => referencePitch * (EDOTuning.ratio divisions) ^ i) }

/-- Embedding of `class Sequence` (src/js/main.js lines 73-126): the mutable
beat-by-slot grid of boolean note flags. -/
structure Sequence where
  beats : ℕ
  tuning : Tuning
  lowOctave : ℤ
  highOctave : ℤ
  seq : List (List Bool)

/-- Embedding of the `Sequence` constructor: a `beats` by
`tuning.length * numOctaves` grid of `false`.  A non-positive octave span
makes the inner construction loop run zero times, hence the `Int.toNat`. -/
def Sequence.new (beats : ℕ) (tuning : Tuning) (lowOctave highOctave : ℤ) : Sequence :=
  { beats := beats
    tuning := tuning
    lowOctave := lowOctave
    highOctave := highOctave
    seq := List.replicate beats
      (List.replicate (tuning.length * (highOctave - lowOctave + 1).toNat) false) }

/-- Embedding of the getter `Sequence.length`: `this.seq.length`. -/
def Sequence.length (s : Sequence) : ℕ :=
  s.seq.length

/-- Embedding of the getter `Sequence.numOctaves`. -/
def Sequence.numOctaves (s : Sequence) : ℤ :=
  s.highOctave - s.lowOctave + 1

/-- The flat slot index `(octave - this.lowOctave) * this.tuning.length +
noteIndex` shared by `setNote` and `unsetNote` (the in-range theorems all
assume `lowOctave ≤ octave`, where `Int.toNat` is exact). -/
def Sequence.slotIndex (s : Sequence) (octave : ℤ) (noteIndex : ℕ) : ℕ :=
  (octave - s.lowOctave).toNat * s.tuning.length + noteIndex

/-- Embedding of `Sequence.setNote`: writes `true` at the flat slot index of
`(octave, noteIndex)` in row `beat`. -/
def Sequence.setNote (s : Sequence) (beat : ℕ) (octave : ℤ) (noteIndex : ℕ) : Sequence :=
  { s with
      seq := s.seq.set beat
        ((s.seq.getD beat []).set (s.slotIndex octave noteIndex) true) }

/-- Embedding of `Sequence.unsetNote`: writes `false` at the flat slot index
of `(octave, noteIndex)` in row `beat`. -/
def Sequence.unsetNote (s : Sequence) (beat : ℕ) (octave : ℤ) (noteIndex : ℕ) : Sequence :=
  { s with
      seq := s.seq.set beat
        ((s.seq.getD beat []).set (s.slotIndex octave noteIndex) false) }

/-- Well-formedness of a grid: every row has the width the constructor
allocates (`tuning.length * numOctaves`).  `Sequence.new` establishes it and
`setNote` / `unsetNote` preserve it. -/
def Sequence.WF (s : Sequence) : Prop :=
  ∀ row ∈ s.seq, row.length = s.tuning.length * s.numOctaves.toNat

/-- Embedding of `class NotesOnBeatIterator` (src/js/main.js lines 134-168):
a cursor over one beat row. -/
structure NotesOnBeatIterator where
  sequence : Sequence
  beat : ℕ
  beatArray : List Bool
  nextIndex : ℕ

/-- Embedding of `Sequence.getIteratorAtBeat` / the iterator constructor:
binds `beatArray = this.seq[beat]` and starts the cursor at slot 0. -/
def Sequence.getIteratorAtBeat (s : Sequence) (beat : ℕ) : NotesOnBeatIterator :=
  { sequence := s
    beat := beat
    beatArray := s.seq.getD beat []
    nextIndex := 0 }

/-- The cursor motion of `advanceToNextActiveNote`: starting from `i`, move
forward past `false` entries of `arr`, stopping at the first `true` entry or
at the end of the row. -/
def advanceIndex (arr : List Bool) (i : ℕ) : ℕ :=
  if h : i < arr.length then
    if arr.getD i false then i else advanceIndex arr (i + 1)
  else i
termination_by arr.length - i
decreasing_by omega

/-- Embedding of `NotesOnBeatIterator.advanceToNextActiveNote`: the `while`
loop that moves `this.nextIndex` forward past inactive slots. -/
def NotesOnBeatIterator.advanceToNextActiveNote
    (it : NotesOnBeatIterator) : NotesOnBeatIterator :=
  { it with nextIndex := advanceIndex it.beatArray it.nextIndex }

/-- Embedding of the getter `NotesOnBeatIterator.hasNext`: advances past
inactive slots (a mutation of `this`, hence the returned iterator) and
reports whether an unvisited active slot remains. -/
def NotesOnBeatIterator.hasNext (it : NotesOnBeatIterator) : Bool × NotesOnBeatIterator :=
  let a := it.advanceToNextActiveNote
  (decide (a.nextIndex < a.beatArray.length), a)

/-- The frequency the iterator computes for flat slot `k`: the body of the
getter `next` — `note = k % scaleLength`, `octave = lowOctave +
Math.floor(k / scaleLength)`, then delegation to the tuning. -/
noncomputable def slotFrequency (s : Sequence) (k : ℕ) : ℝ :=
  s.tuning.getNoteInOctave (s.lowOctave + (k / s.tuning.length : ℕ)) (k % s.tuning.length)

/-- Embedding of the getter `NotesOnBeatIterator.next`: advances past
inactive slots, returns the frequency of the slot under the cursor and moves
the cursor one past it (`this.nextIndex++`). -/
noncomputable def NotesOnBeatIterator.next (it : NotesOnBeatIterator) : ℝ × NotesOnBeatIterator :=
  let a := it.advanceToNextActiveNote
  (slotFrequency a.sequence a.nextIndex, { a with nextIndex := a.nextIndex + 1 })

/-- Fuel-indexed unrolling of a full `while (hasNext) next` traversal of the
iterator, instrumented with the flat slot index of each visited slot, paired
with the iterator state the traversal leaves behind. -/
noncomputable def runIteratorAux : ℕ → NotesOnBeatIterator → List ℕ × NotesOnBeatIterator
  | 0, it => ([], it)
  | fuel + 1, it =>
    let p := it.hasNext
    if p.1 then
      let q := p.2.next
      let r := runIteratorAux fuel q.2
      (p.2.nextIndex :: r.1, r.2)
    else ([], p.2)

/-- A full `while (hasNext) next` traversal of the iterator: each loop
iteration moves the cursor at least one slot forward, so
`beatArray.length + 1` rounds of fuel always run the loop to completion. -/
noncomputable def runIterator (it : NotesOnBeatIterator) : List ℕ × NotesOnBeatIterator :=
  runIteratorAux (it.beatArray.length + 1) it

/-- Fuel-indexed unrolling of the scheduler's inner loop
`while (iterator.hasNext) scheduleNote(iterator.next, ...)`, projected onto
the frequencies it feeds to `scheduleNote`, in order. -/
noncomputable def collectNotesAux : ℕ → NotesOnBeatIterator → List ℝ
  | 0, _ => []
  | fuel + 1, it =>
    let p := it.hasNext
    if p.1 then
      let q := p.2.next
      q.1 :: collectNotesAux fuel q.2
    else []

/-- The frequencies the scheduler's inner `while (iterator.hasNext)` loop
yields for iterator state `it` (fuel as in `runIterator`). -/
noncomputable def collectNotes (it : NotesOnBeatIterator) : List ℝ :=
  collectNotesAux (it.beatArray.length + 1) it

/-- The active flat slot indices of row `arr` from position `i` on, in
increasing order: the reference list the iterator traversal is proved
against. -/
def activeFrom (arr : List Bool) (i : ℕ) : List ℕ :=
  if h : i < arr.length then
    (if arr.getD i false then [i] else []) ++ activeFrom arr (i + 1)
  else []
termination_by arr.length - i
decreasing_by omega

/-- One scheduled tone: the parameters the scheduler freezes into the
oscillator it creates (`osc.type`, `osc.frequency`, `osc.start(t)`,
`osc.stop(t + noteDuration)`). -/
structure SoundEvent where
  waveform : String
  freq : ℝ
  start : ℚ
  stop : ℚ

/-- Embedding of `class Scheduler` (src/js/main.js lines 173-270).  The
`audioCtx` collaborator is external; its clock is the `now` argument of
`lookAheadAndSchedule`. -/
structure Scheduler where
  sequence : Sequence
  lookAheadAndSchedulePeriod : ℚ
  scheduleAheadTime : ℚ
  currentNoteIndex : ℕ
  nextNoteTime : ℚ
  noteQueue : List ℕ
  timerID : Option ℕ
  bpm : ℚ
  waveform : String

/-- Embedding of the `Scheduler` constructor: the defaults of
src/js/main.js lines 177-196. -/
def Scheduler.new (sequence : Sequence) : Scheduler :=
  { sequence := sequence
    lookAheadAndSchedulePeriod := 25
    scheduleAheadTime := 1 / 10
    currentNoteIndex := 0
    nextNoteTime := 0
    noteQueue := []
    timerID := none
    bpm := 120
    waveform := "sine" }

/-- Embedding of `Scheduler.nextNote`: advance `nextNoteTime` by the period
`60 / bpm` seconds and step `currentNoteIndex` forward modulo the sequence
length. -/
def Scheduler.nextNote (st : Scheduler) : Scheduler :=
  { st with
      nextNoteTime := st.nextNoteTime + 60 / st.bpm
      currentNoteIndex := (st.currentNoteIndex + 1) % st.sequence.length }

/-- Embedding of the getter `Scheduler.noteDuration`: `1 / this.bpm * 60`
seconds, evaluated at the moment it is read. -/
def Scheduler.noteDuration (st : Scheduler) : ℚ :=
  1 / st.bpm * 60

/-- Embedding of `Scheduler.scheduleNote`: creates one oscillator configured
with the current waveform, started at `scheduledTime` and stopped at
`scheduledTime + noteDuration`.  (`noteIndex` is kept for the commented-out
rendering queue and is unused, as in the source.) -/
def Scheduler.scheduleNote (st : Scheduler) (freq : ℝ) (noteIndex : ℕ)
    (scheduledTime : ℚ) : SoundEvent :=
  { waveform := st.waveform
    freq := freq
    start := scheduledTime
    stop := scheduledTime + st.noteDuration }

/-- Embedding of `Scheduler.setBPM`: a plain mutator, no validation. -/
def Scheduler.setBPM (st : Scheduler) (bpm : ℚ) : Scheduler :=
  { st with bpm := bpm }

/-- Embedding of `Scheduler.setWaveform`: a plain mutator, no validation. -/
def Scheduler.setWaveform (st : Scheduler) (waveform : String) : Scheduler :=
  { st with waveform := waveform }

/-- Fuel-indexed unrolling of the drain loop of
`Scheduler.lookAheadAndSchedule`: while `nextNoteTime < now +
scheduleAheadTime`, schedule one sound event per frequency the beat iterator
of `currentNoteIndex` yields, then `nextNote()`.  Returns the final scheduler
state and the scheduled events in order. -/
noncomputable def Scheduler.lookAheadAndScheduleAux
    (now : ℚ) : ℕ → Scheduler → Scheduler × List SoundEvent
  | 0, st => (st, [])
  | fuel + 1, st =>
    if st.nextNoteTime < now + st.scheduleAheadTime then
      let evs := (collectNotes (st.sequence.getIteratorAtBeat st.currentNoteIndex)).map
        (fun f => st.scheduleNote f st.currentNoteIndex st.nextNoteTime)
      let r := Scheduler.lookAheadAndScheduleAux now fuel st.nextNote
      (r.1, evs ++ r.2)
    else (st, [])

/-- Fuel sufficient for the drain loop when `0 < bpm`: the number of beat
periods `60 / bpm` needed to move `nextNoteTime` past `now +
scheduleAheadTime`, plus one final test of the loop condition. -/
def Scheduler.iterationBound (now : ℚ) (st : Scheduler) : ℕ :=
  (Int.ceil ((now + st.scheduleAheadTime - st.nextNoteTime) * st.bpm / 60)).toNat + 1

/-- Embedding of one invocation of `Scheduler.lookAheadAndSchedule` (minus
the trailing `setTimeout` re-arm, which is host-environment interaction):
drain the look-ahead window against the audio clock `now`. -/
noncomputable def Scheduler.lookAheadAndSchedule
    (now : ℚ) (st : Scheduler) : Scheduler × List SoundEvent :=
  Scheduler.lookAheadAndScheduleAux now (Scheduler.iterationBound now st) st

/-!
### The older copy of the program (src/unnamed/part_000)

The repository also ships an earlier revision of the same file.  Its
`Tuning`, `EDOTuning`, `Sequence` and the iterator's construction,
`advanceToNextActiveNote` and `hasNext` are identical to the embeddings
above.  It differs in exactly three places, embedded here: the iterator's
`next` getter lacks the `this.nextIndex++` cursor advance (lines 149-155),
and its `Scheduler` (lines 161-243) stores `noteDuration = 0.1` as a
constant in the constructor, never assigns a `waveform` property (its
`scheduleNote` hardcodes `osc.type = "sine"`), and has no `setBPM` /
`setWaveform` / `noteDuration` getter.
-/

/-- Embedding of the getter `next` of the older iterator copy
(src/unnamed/part_000 lines 149-155): as `next`, it advances past inactive
slots and returns the frequency of the slot under the cursor, but the
`this.nextIndex++` line is absent, so the cursor stays on the found slot. -/
noncomputable def NotesOnBeatIterator.oldNext
    (it : NotesOnBeatIterator) : ℝ × NotesOnBeatIterator :=
  let a := it.advanceToNextActiveNote
  (slotFrequency a.sequence a.nextIndex, a)

/-- Embedding of the older `class Scheduler` copy (src/unnamed/part_000
lines 161-243).  `noteDuration` is a stored field, not a getter; `waveform`
is an `Option` because the constructor never assigns the property (reading
it would give `undefined`). -/
structure OldScheduler where
  sequence : Sequence
  bpm : ℚ
  noteDuration : ℚ
  lookAheadAndSchedulePeriod : ℚ
  scheduleAheadTime : ℚ
  currentNoteIndex : ℕ
  nextNoteTime : ℚ
  noteQueue : List ℕ
  timerID : Option ℕ
  waveform : Option String

/-- Embedding of the older `Scheduler` constructor (src/unnamed/part_000
lines 165-182): `bpm = 120`, the stored constant `noteDuration = 0.1`
seconds, and no `waveform` assignment anywhere in the class. -/
def OldScheduler.new (sequence : Sequence) : OldScheduler :=
  { sequence := sequence
    bpm := 120
    noteDuration := 1 / 10
    lookAheadAndSchedulePeriod := 25
    scheduleAheadTime := 1 / 10
    currentNoteIndex := 0
    nextNoteTime := 0
    noteQueue := []
    timerID := none
    waveform := none }

/-- Embedding of the older `Scheduler.nextNote` (src/unnamed/part_000 lines
187-193), identical in behavior to the current one. -/
def OldScheduler.nextNote (st : OldScheduler) : OldScheduler :=
  { st with
      nextNoteTime := st.nextNoteTime + 60 / st.bpm
      currentNoteIndex := (st.currentNoteIndex + 1) % st.sequence.length }

/-- Embedding of the older `Scheduler.scheduleNote` (src/unnamed/part_000
lines 202-215): `osc.type = "sine"` is hardcoded and the tone is stopped at
`scheduledTime + this.noteDuration` with the stored constant duration. -/
def OldScheduler.scheduleNote (st : OldScheduler) (freq : ℝ) (noteIndex : ℕ)
    (scheduledTime : ℚ) : SoundEvent :=
  { waveform := "sine"
    freq := freq
    start := scheduledTime
    stop := scheduledTime + st.noteDuration }

/-! ### Cursor-advance lemmas -/

/-- The cursor never moves backwards. -/
lemma advanceIndex_le (arr : List Bool) (i : ℕ) : i ≤ advanceIndex arr i := by
  induction i using advanceIndex.induct arr with
  | case1 x h hact =>
    rw [advanceIndex, dif_pos h, if_pos hact]
  | case2 x h hact ih =>
    rw [advanceIndex, dif_pos h, if_neg hact]
    omega
  | case3 x h =>
    rw [advanceIndex, dif_neg h]

/-- When the cursor stops inside the row, it stops on an active slot. -/
lemma advanceIndex_active (arr : List Bool) (i : ℕ) :
    advanceIndex arr i < arr.length → arr.getD (advanceIndex arr i) false = true := by
  induction i using advanceIndex.induct arr with
  | case1 x h hact =>
    rw [advanceIndex, dif_pos h, if_pos hact]
    intro _
    exact hact
  | case2 x h hact ih =>
    rw [advanceIndex, dif_pos h, if_neg hact]
    exact ih
  | case3 x h =>
    rw [advanceIndex, dif_neg h]
    intro hc
    exact absurd hc h

/-- Every slot the cursor skips is inactive. -/
lemma advanceIndex_skipped (arr : List Bool) (i : ℕ) :
    ∀ k, i ≤ k → k < advanceIndex arr i → arr.getD k false = false := by
  induction i using advanceIndex.induct arr with
  | case1 x h hact =>
    rw [advanceIndex, dif_pos h, if_pos hact]
    intro k hk1 hk2
    omega
  | case2 x h hact ih =>
    rw [advanceIndex, dif_pos h, if_neg hact]
    intro k hk1 hk2
    rcases Nat.eq_or_lt_of_le hk1 with rfl | hk3
    · simpa using hact
    · exact ih k hk3 hk2
  | case3 x h =>
    rw [advanceIndex, dif_neg h]
    intro k hk1 hk2
    omega

/-- Advancing an already-advanced cursor is a no-op. -/
lemma advanceIndex_idem (arr : List Bool) (i : ℕ) :
    advanceIndex arr (advanceIndex arr i) = advanceIndex arr i := by
  by_cases h : advanceIndex arr i < arr.length
  · rw [advanceIndex, dif_pos h, if_pos (advanceIndex_active arr i h)]
  · rw [advanceIndex, dif_neg h]

/-! ### Lemmas about the reference list of active slots -/

/-- Past the end of the row there is no active slot. -/
lemma activeFrom_of_length_le (arr : List Bool) (i : ℕ) (h : arr.length ≤ i) :
    activeFrom arr i = [] := by
  rw [activeFrom, dif_neg (Nat.not_lt.mpr h)]

/-- Membership in the reference list of active slots. -/
lemma activeFrom_mem (arr : List Bool) (i : ℕ) (j : ℕ) :
    j ∈ activeFrom arr i ↔ i ≤ j ∧ j < arr.length ∧ arr.getD j false = true := by
  induction i using activeFrom.induct arr with
  | case1 x h ih =>
    rw [activeFrom, dif_pos h]
    by_cases hact : arr.getD x false = true
    · rw [if_pos hact, List.singleton_append, List.mem_cons, ih]
      constructor
      · rintro (rfl | ⟨h1, h2, h3⟩)
        · exact ⟨le_refl j, h, hact⟩
        · exact ⟨by omega, h2, h3⟩
      · rintro ⟨h1, h2, h3⟩
        rcases Nat.eq_or_lt_of_le h1 with rfl | h4
        · exact Or.inl rfl
        · exact Or.inr ⟨h4, h2, h3⟩
    · rw [if_neg hact, List.nil_append, ih]
      constructor
      · rintro ⟨h1, h2, h3⟩
        exact ⟨by omega, h2, h3⟩
      · rintro ⟨h1, h2, h3⟩
        rcases Nat.eq_or_lt_of_le h1 with rfl | h4
        · exact absurd h3 hact
        · exact ⟨h4, h2, h3⟩
  | case2 x h =>
    rw [activeFrom, dif_neg h]
    simp only [List.not_mem_nil, false_iff]
    rintro ⟨h1, h2, h3⟩
    omega

/-- The reference list of active slots is strictly increasing. -/
lemma activeFrom_sorted (arr : List Bool) (i : ℕ) :
    List.Sorted (· < ·) (activeFrom arr i) := by
  induction i using activeFrom.induct arr with
  | case1 x h ih =>
    rw [activeFrom, dif_pos h]
    by_cases hact : arr.getD x false = true
    · rw [if_pos hact, List.singleton_append, List.sorted_cons]
      refine ⟨fun b hb => ?_, ih⟩
      have := (activeFrom_mem arr (x + 1) b).mp hb
      omega
    · rw [if_neg hact, List.nil_append]
      exact ih
  | case2 x h =>
    rw [activeFrom, dif_neg h]
    exact List.sorted_nil

/-- Skipping inactive slots does not change the reference list. -/
lemma activeFrom_eq_skip (arr : List Bool) :
    ∀ (n i j : ℕ), j - i ≤ n → i ≤ j →
      (∀ k, i ≤ k → k < j → arr.getD k false = false) →
      activeFrom arr i = activeFrom arr j := by
  intro n
  induction n with
  | zero =>
    intro i j h1 h2 _
    have h3 : i = j := by omega
    rw [h3]
  | succ n ih =>
    intro i j h1 h2 hskip
    rcases Nat.eq_or_lt_of_le h2 with rfl | hlt
    · rfl
    · by_cases hi : i < arr.length
      · have hstep : activeFrom arr i = activeFrom arr (i + 1) := by
          rw [activeFrom, dif_pos hi,
            if_neg (by rw [hskip i (le_refl i) hlt]; exact Bool.false_ne_true),
            List.nil_append]
        rw [hstep]
        exact ih (i + 1) j (by omega) (by omega) (fun k hk1 hk2 => hskip k (by omega) hk2)
      · rw [activeFrom_of_length_le arr i (by omega),
          activeFrom_of_length_le arr j (by omega)]

/-- Unfolding the reference list at the first active slot at or after `i`. -/
lemma activeFrom_cons (arr : List Bool) (i j : ℕ) (hij : i ≤ j)
    (hj : j < arr.length) (hact : arr.getD j false = true)
    (hskip : ∀ k, i ≤ k → k < j → arr.getD k false = false) :
    activeFrom arr i = j :: activeFrom arr (j + 1) := by
  rw [activeFrom_eq_skip arr (j - i) i j (le_refl _) hij hskip, activeFrom,
    dif_pos hj, if_pos hact, List.singleton_append]

/-! ### The iterator traversal -/

/-- The boolean returned by `hasNext` is false exactly when the advanced
cursor has left the row. -/
lemma hasNext_false_iff (it : NotesOnBeatIterator) :
    (it.hasNext).1 = false ↔
      it.beatArray.length ≤ advanceIndex it.beatArray it.nextIndex := by
  simp [NotesOnBeatIterator.hasNext, NotesOnBeatIterator.advanceToNextActiveNote]

/-- The state returned by `hasNext` is the advanced iterator. -/
lemma hasNext_snd (it : NotesOnBeatIterator) :
    (it.hasNext).2 = it.advanceToNextActiveNote := rfl

/-- A `hasNext` call is idempotent: asking again changes neither the answer
nor the iterator state. -/
lemma hasNext_hasNext (it : NotesOnBeatIterator) :
    ((it.hasNext).2).hasNext = it.hasNext := by
  simp [NotesOnBeatIterator.hasNext, NotesOnBeatIterator.advanceToNextActiveNote,
    advanceIndex_idem]

/-- Characterization of the traversal: with sufficient fuel it visits exactly
the active slots from the cursor on, preserves the row and the owning
sequence, and leaves an exhausted iterator behind. -/
lemma runIteratorAux_spec :
    ∀ (fuel : ℕ) (it : NotesOnBeatIterator),
      it.beatArray.length + 1 - it.nextIndex ≤ fuel →
      (runIteratorAux fuel it).1 = activeFrom it.beatArray it.nextIndex
      ∧ (runIteratorAux fuel it).2.beatArray = it.beatArray
      ∧ (runIteratorAux fuel it).2.sequence = it.sequence
      ∧ ((runIteratorAux fuel it).2.hasNext).1 = false := by
  intro fuel
  induction fuel with
  | zero =>
    intro it hfuel
    have h0 : runIteratorAux 0 it = ([], it) := rfl
    rw [h0]
    dsimp only
    refine ⟨(activeFrom_of_length_le _ _ (by omega)).symm, rfl, rfl, ?_⟩
    rw [hasNext_false_iff]
    have h1 := advanceIndex_le it.beatArray it.nextIndex
    omega
  | succ fuel ih =>
    intro it hfuel
    by_cases hp : (it.hasNext).1 = true
    · have hj : advanceIndex it.beatArray it.nextIndex < it.beatArray.length := by
        by_contra hc
        have h2 : (it.hasNext).1 = false := (hasNext_false_iff it).mpr (Nat.not_lt.mp hc)
        rw [hp] at h2
        simp at h2
      have hi_le := advanceIndex_le it.beatArray it.nextIndex
      have hunfold :
          runIteratorAux (fuel + 1) it =
            ((it.hasNext).2.nextIndex :: (runIteratorAux fuel ((it.hasNext).2.next).2).1,
              (runIteratorAux fuel ((it.hasNext).2.next).2).2) := by
        rw [runIteratorAux]
        simp only [hp, if_true]
      have hq2 :
          ((it.hasNext).2.next).2 =
            { it with nextIndex := advanceIndex it.beatArray it.nextIndex + 1 } := by
        show ({ (it.hasNext).2.advanceToNextActiveNote with
          nextIndex := (it.hasNext).2.advanceToNextActiveNote.nextIndex + 1 }
            : NotesOnBeatIterator) = _
        rw [hasNext_snd]
        simp [NotesOnBeatIterator.advanceToNextActiveNote, advanceIndex_idem]
      have hih := ih (((it.hasNext).2.next).2) (by rw [hq2]; dsimp only; omega)
      rw [hq2] at hih
      obtain ⟨ha, hb, hc2, hd⟩ := hih
      dsimp only at ha hb hc2 hd
      rw [hunfold, hq2]
      have hsnd : (it.hasNext).2.nextIndex = advanceIndex it.beatArray it.nextIndex := rfl
      refine ⟨?_, ?_, ?_, ?_⟩
      · dsimp only
        rw [ha, hsnd]
        exact (activeFrom_cons it.beatArray it.nextIndex _
          hi_le hj (advanceIndex_active _ _ hj)
          (advanceIndex_skipped _ _)).symm
      · dsimp only
        exact hb
      · dsimp only
        exact hc2
      · dsimp only
        exact hd
    · have hp2 : (it.hasNext).1 = false := by
        cases h : (it.hasNext).1
        · rfl
        · exact absurd h hp
      have hlen := (hasNext_false_iff it).mp hp2
      have hunfold : runIteratorAux (fuel + 1) it = ([], (it.hasNext).2) := by
        rw [runIteratorAux]
        simp only [hp2, if_false, Bool.false_eq_true]
      rw [hunfold]
      refine ⟨?_, rfl, rfl, ?_⟩
      · rw [activeFrom_eq_skip it.beatArray
            (advanceIndex it.beatArray it.nextIndex - it.nextIndex)
            it.nextIndex (advanceIndex it.beatArray it.nextIndex) (le_refl _)
            (advanceIndex_le _ _) (advanceIndex_skipped _ _),
          activeFrom_of_length_le _ _ hlen]
      · rw [hasNext_hasNext]
        exact hp2

/-- The traversal wrapper always has sufficient fuel. -/
lemma runIterator_spec (it : NotesOnBeatIterator) :
    (runIterator it).1 = activeFrom it.beatArray it.nextIndex
    ∧ (runIterator it).2.beatArray = it.beatArray
    ∧ (runIterator it).2.sequence = it.sequence
    ∧ ((runIterator it).2.hasNext).1 = false :=
  runIteratorAux_spec (it.beatArray.length + 1) it (by omega)

/-- The scheduler's inner loop yields exactly the frequencies of the slots
the instrumented traversal visits, in order. -/
lemma collectNotesAux_map :
    ∀ (fuel : ℕ) (it : NotesOnBeatIterator),
      collectNotesAux fuel it = (runIteratorAux fuel it).1.map (slotFrequency it.sequence) := by
  intro fuel
  induction fuel with
  | zero =>
    intro it
    rfl
  | succ fuel ih =>
    intro it
    by_cases hp : (it.hasNext).1 = true
    · have hq1 : ((it.hasNext).2.next).1 =
          slotFrequency it.sequence (it.hasNext).2.nextIndex := by
        show slotFrequency (it.hasNext).2.advanceToNextActiveNote.sequence
          (it.hasNext).2.advanceToNextActiveNote.nextIndex = _
        rw [hasNext_snd]
        simp [NotesOnBeatIterator.advanceToNextActiveNote, advanceIndex_idem]
      have hq2seq : (((it.hasNext).2.next).2).sequence = it.sequence := rfl
      rw [collectNotesAux, runIteratorAux]
      simp only [hp, if_true, List.map_cons]
      rw [hq1, ih (((it.hasNext).2.next).2), hq2seq]
    · have hp2 : (it.hasNext).1 = false := by
        cases h : (it.hasNext).1
        · rfl
        · exact absurd h hp
      rw [collectNotesAux, runIteratorAux]
      simp only [hp2, if_false, Bool.false_eq_true, List.map_nil]

/-- The frequencies the scheduler's inner loop yields for iterator state
`it`: the active slots from the cursor on, each mapped to its frequency. -/
lemma collectNotes_eq (it : NotesOnBeatIterator) :
    collectNotes it = (activeFrom it.beatArray it.nextIndex).map (slotFrequency it.sequence) := by
  rw [collectNotes, collectNotesAux_map, (runIteratorAux_spec _ it (by omega)).1]
/-! ### Tuning lemmas -/

/-- The EDO constructor stores exactly `divisions` pitches. -/
lemma EDOTuning_length (r : ℝ) (d : ℕ) : (EDOTuning r d).length = d := by
  simp [EDOTuning, Tuning.length]

/-- The pitch table entry `i` of the EDO constructor. -/
lemma EDOTuning_getD (r : ℝ) (d i : ℕ) (h : i < d) :
    (EDOTuning r d).pitches.getD i 0 = r * (EDOTuning.ratio d) ^ i := by
  have hlen : (EDOTuning r d).pitches.length = d := EDOTuning_length r d
  rw [List.getD_eq_getElem _ _ (by rw [hlen]; exact h)]
  simp [EDOTuning]

/-- `getNote` reads the pitch table. -/
lemma EDOTuning_getNote (r : ℝ) (d n : ℕ) (h : n < d) :
    (EDOTuning r d).getNote n = r * (EDOTuning.ratio d) ^ n := by
  rw [Tuning.getNote, EDOTuning_getD r d n h]

/-- Compounding the EDO step ratio: `ratio ^ m = 2 ^ (m / divisions)`. -/
lemma EDOTuning_ratio_pow (d : ℕ) (hd : 1 ≤ d) (m : ℕ) :
    (EDOTuning.ratio d) ^ m = (2 : ℝ) ^ ((m : ℝ) / (d : ℝ)) := by
  rw [EDOTuning.ratio, ← Real.rpow_natCast ((2 : ℝ) ^ ((1 : ℝ) / (d : ℝ))) m,
    ← Real.rpow_mul (by norm_num)]
  rw [div_mul_eq_mul_div, one_mul]

/-- An integer power of 2 as a real power. -/
lemma zpow_two_eq_rpow (z : ℤ) : (2 : ℝ) ^ z = (2 : ℝ) ^ (z : ℝ) :=
  (Real.rpow_intCast 2 z).symm

/-- Closed form of the frequency of flat slot `k` over an EDO tuning:
`r * 2 ^ (lowOctave - 4 + k / divisions)` with a real exponent, strictly
monotone in `k`. -/
lemma slotFrequency_formula (s : Sequence) (r : ℝ) (d : ℕ)
    (htun : s.tuning = EDOTuning r d) (hd : 1 ≤ d) (k : ℕ) :
    slotFrequency s k = r * (2 : ℝ) ^ ((s.lowOctave : ℝ) - 4 + (k : ℝ) / (d : ℝ)) := by
  have hd0 : (d : ℝ) ≠ 0 := Nat.cast_ne_zero.mpr (by omega)
  have hmod : (d : ℝ) * ((k / d : ℕ) : ℝ) + ((k % d : ℕ) : ℝ) = (k : ℝ) := by
    exact_mod_cast congrArg (Nat.cast : ℕ → ℝ) (Nat.div_add_mod k d)
  have hexp : ∀ q m : ℕ, (d : ℝ) * (q : ℝ) + (m : ℝ) = (k : ℝ) →
      ((s.lowOctave + (q : ℤ) - 4 : ℤ) : ℝ) + (m : ℝ) / (d : ℝ)
        = (s.lowOctave : ℝ) - 4 + (k : ℝ) / (d : ℝ) := by
    intro q m hqm
    push_cast
    field_simp
    linarith
  have hexp2 := hexp (k / d) (k % d) hmod
  rw [slotFrequency, htun, EDOTuning_length, Tuning.getNoteInOctave,
    EDOTuning_getNote r d (k % d) (Nat.mod_lt _ (by omega)),
    EDOTuning_ratio_pow d hd (k % d), zpow_two_eq_rpow, mul_left_comm,
    ← Real.rpow_add (by norm_num), hexp2]

/-- Over an EDO tuning with positive reference pitch, distinct flat slots have
distinct frequencies. -/
lemma slotFrequency_injective (s : Sequence) (r : ℝ) (d : ℕ)
    (htun : s.tuning = EDOTuning r d) (hr : 0 < r) (hd : 1 ≤ d) :
    Function.Injective (slotFrequency s) := by
  have hmono : StrictMono (slotFrequency s) := by
    intro a b hab
    rw [slotFrequency_formula s r d htun hd a, slotFrequency_formula s r d htun hd b]
    apply mul_lt_mul_of_pos_left _ hr
    rw [Real.rpow_lt_rpow_left_iff one_lt_two]
    have hd0 : (0 : ℝ) < (d : ℝ) := by
      exact_mod_cast Nat.lt_of_lt_of_le Nat.zero_lt_one hd
    have hcast : (a : ℝ) < (b : ℝ) := by exact_mod_cast hab
    have hdiv : (a : ℝ) / d < (b : ℝ) / d := (div_lt_div_iff_of_pos_right hd0).mpr hcast
    linarith
  exact hmono.injective

/-! ### Grid read/write lemmas -/

/-- Reading back the row just written. -/
lemma getD_set_self_list (l : List (List Bool)) (b : ℕ) (v : List Bool)
    (hb : b < l.length) :
    (l.set b v).getD b [] = v := by
  rw [List.getD_eq_getElem _ _ (by simpa using hb)]
  exact List.getElem_set_self ..

/-- Reading back the slot just written. -/
lemma getD_set_self_row (row : List Bool) (k : ℕ) (v : Bool) (hk : k < row.length) :
    (row.set k v).getD k false = v := by
  rw [List.getD_eq_getElem _ _ (by simpa using hk)]
  exact List.getElem_set_self ..

/-- Writes to one slot leave every other slot unchanged. -/
lemma getD_set_ne_row (row : List Bool) (k j : ℕ) (v : Bool) (hne : j ≠ k) :
    (row.set k v).getD j false = row.getD j false := by
  by_cases hj : j < row.length
  · rw [List.getD_eq_getElem _ _ (by simpa using hj),
      List.getD_eq_getElem _ _ hj]
    exact List.getElem_set_ne (by omega) ..
  · rw [List.getD_eq_default _ _ (by simpa using Nat.le_of_not_lt hj),
      List.getD_eq_default _ _ (Nat.le_of_not_lt hj)]

/-! ### Scheduler drain-loop lemmas -/

/-- Unfolding one round of the fuelled drain loop. -/
lemma lookAheadAux_succ (now : ℚ) (fuel : ℕ) (st : Scheduler) :
    Scheduler.lookAheadAndScheduleAux now (fuel + 1) st =
      if st.nextNoteTime < now + st.scheduleAheadTime then
        ((Scheduler.lookAheadAndScheduleAux now fuel st.nextNote).1,
          ((collectNotes (st.sequence.getIteratorAtBeat st.currentNoteIndex)).map
            (fun f => st.scheduleNote f st.currentNoteIndex st.nextNoteTime))
            ++ (Scheduler.lookAheadAndScheduleAux now fuel st.nextNote).2)
      else (st, []) := rfl

/-- With the loop condition already false, any amount of fuel leaves the
state untouched and schedules nothing. -/
lemma lookAheadAux_stop (now : ℚ) (st : Scheduler)
    (h : ¬ st.nextNoteTime < now + st.scheduleAheadTime) :
    ∀ fuel, Scheduler.lookAheadAndScheduleAux now fuel st = (st, []) := by
  intro fuel
  cases fuel with
  | zero => rfl
  | succ f => rw [lookAheadAux_succ, if_neg h]

/-- The fuel budget is always at least one round. -/
lemma iterationBound_pos (now : ℚ) (st : Scheduler) :
    1 ≤ Scheduler.iterationBound now st := by
  rw [Scheduler.iterationBound]
  omega

/-- One `nextNote` advance consumes exactly one round of the fuel budget
while the loop condition holds and the tempo is positive. -/
lemma iterationBound_step (now : ℚ) (st : Scheduler) (hbpm : 0 < st.bpm)
    (hcond : st.nextNoteTime < now + st.scheduleAheadTime) :
    Scheduler.iterationBound now st.nextNote + 1 = Scheduler.iterationBound now st := by
  have hbpm0 : st.bpm ≠ 0 := ne_of_gt hbpm
  have hx : (now + st.scheduleAheadTime - (st.nextNoteTime + 60 / st.bpm)) * st.bpm / 60
      = (now + st.scheduleAheadTime - st.nextNoteTime) * st.bpm / 60 - 1 := by
    field_simp
    ring
  have hpos : (0 : ℚ) < (now + st.scheduleAheadTime - st.nextNoteTime) * st.bpm / 60 :=
    div_pos (mul_pos (by linarith) hbpm) (by norm_num)
  have hceil : 0 < Int.ceil ((now + st.scheduleAheadTime - st.nextNoteTime) * st.bpm / 60) :=
    Int.ceil_pos.mpr hpos
  rw [Scheduler.iterationBound, Scheduler.iterationBound]
  dsimp only [Scheduler.nextNote]
  rw [hx, Int.ceil_sub_one]
  omega

/-- The fuelled drain loop computes the same answer from any two sufficient
fuel budgets. -/
lemma lookAheadAux_congr (now : ℚ) :
    ∀ (fuel1 fuel2 : ℕ) (st : Scheduler), 0 < st.bpm →
      Scheduler.iterationBound now st ≤ fuel1 →
      Scheduler.iterationBound now st ≤ fuel2 →
      Scheduler.lookAheadAndScheduleAux now fuel1 st
        = Scheduler.lookAheadAndScheduleAux now fuel2 st := by
  intro fuel1
  induction fuel1 with
  | zero =>
    intro fuel2 st _ h1 _
    have := iterationBound_pos now st
    omega
  | succ f1 ih =>
    intro fuel2 st hbpm h1 h2
    have hb1 := iterationBound_pos now st
    cases fuel2 with
    | zero => omega
    | succ f2 =>
      by_cases hcond : st.nextNoteTime < now + st.scheduleAheadTime
      · rw [lookAheadAux_succ, if_pos hcond, lookAheadAux_succ, if_pos hcond]
        have hstep := iterationBound_step now st hbpm hcond
        rw [ih f2 st.nextNote hbpm (by omega) (by omega)]
      · rw [lookAheadAux_succ, if_neg hcond, lookAheadAux_succ, if_neg hcond]

/-- A drain invocation with the loop condition true performs exactly the
loop body once and continues as an invocation from the advanced state. -/
lemma lookAheadAndSchedule_pos (now : ℚ) (st : Scheduler) (hbpm : 0 < st.bpm)
    (hcond : st.nextNoteTime < now + st.scheduleAheadTime) :
    Scheduler.lookAheadAndSchedule now st =
      ((Scheduler.lookAheadAndSchedule now st.nextNote).1,
        ((collectNotes (st.sequence.getIteratorAtBeat st.currentNoteIndex)).map
          (fun f => st.scheduleNote f st.currentNoteIndex st.nextNoteTime))
          ++ (Scheduler.lookAheadAndSchedule now st.nextNote).2) := by
  rw [Scheduler.lookAheadAndSchedule, Scheduler.lookAheadAndSchedule,
    ← iterationBound_step now st hbpm hcond, lookAheadAux_succ, if_pos hcond]

/-- A drain invocation with the loop condition false does nothing. -/
lemma lookAheadAndSchedule_neg (now : ℚ) (st : Scheduler)
    (h : ¬ st.nextNoteTime < now + st.scheduleAheadTime) :
    Scheduler.lookAheadAndSchedule now st = (st, []) := by
  rw [Scheduler.lookAheadAndSchedule]
  exact lookAheadAux_stop now st h _

/-- The drain loop never changes the look-ahead horizon, the tempo or the
sequence reference. -/
lemma lookAheadAux_preserves (now : ℚ) :
    ∀ (fuel : ℕ) (st : Scheduler),
      (Scheduler.lookAheadAndScheduleAux now fuel st).1.scheduleAheadTime
          = st.scheduleAheadTime
      ∧ (Scheduler.lookAheadAndScheduleAux now fuel st).1.bpm = st.bpm
      ∧ (Scheduler.lookAheadAndScheduleAux now fuel st).1.sequence = st.sequence := by
  intro fuel
  induction fuel with
  | zero =>
    intro st
    exact ⟨rfl, rfl, rfl⟩
  | succ f ih =>
    intro st
    by_cases hcond : st.nextNoteTime < now + st.scheduleAheadTime
    · rw [lookAheadAux_succ, if_pos hcond]
      exact (ih st.nextNote)
    · rw [lookAheadAux_succ, if_neg hcond]
      exact ⟨rfl, rfl, rfl⟩

/-- After a sufficiently fuelled drain, the loop condition has become
false. -/
lemma lookAheadAux_final (now : ℚ) :
    ∀ (fuel : ℕ) (st : Scheduler), 0 < st.bpm →
      Scheduler.iterationBound now st ≤ fuel →
      ¬ ((Scheduler.lookAheadAndScheduleAux now fuel st).1.nextNoteTime
          < now + (Scheduler.lookAheadAndScheduleAux now fuel st).1.scheduleAheadTime) := by
  intro fuel
  induction fuel with
  | zero =>
    intro st _ h1
    have := iterationBound_pos now st
    omega
  | succ f ih =>
    intro st hbpm hle
    by_cases hcond : st.nextNoteTime < now + st.scheduleAheadTime
    · rw [lookAheadAux_succ, if_pos hcond]
      have hstep := iterationBound_step now st hbpm hcond
      exact ih st.nextNote hbpm (by omega)
    · rw [lookAheadAux_succ, if_neg hcond]
      exact hcond

/-- Concrete 12-EDO tuning at reference pitch 440, as the driver builds. -/
noncomputable def sampleTuning : Tuning :=
  EDOTuning 440 12

/-- Concrete two-beat sequence over `sampleTuning`, octaves 3 to 4. -/
noncomputable def sampleSequence : Sequence :=
  Sequence.new 2 sampleTuning 3 4

/-- Concrete freshly constructed scheduler over `sampleSequence`. -/
noncomputable def sampleScheduler : Scheduler :=
  Scheduler.new sampleSequence

/-- Fresh iterator over beat 0 of the sample sequence after
`setNote (0, 3, 0)`: its row has exactly one active slot, slot 0. -/
noncomputable def sampleActiveIterator : NotesOnBeatIterator :=
  (sampleSequence.setNote 0 3 0).getIteratorAtBeat 0

/-- The boolean returned by `hasNext` is true exactly when the advanced
cursor is still inside the row. -/
lemma hasNext_true_iff (it : NotesOnBeatIterator) :
    (it.hasNext).1 = true ↔
      advanceIndex it.beatArray it.nextIndex < it.beatArray.length := by
  simp [NotesOnBeatIterator.hasNext, NotesOnBeatIterator.advanceToNextActiveNote]

/-- The old `next` getter leaves the iterator merely advanced, cursor still
on the found slot. -/
lemma oldNext_snd (it : NotesOnBeatIterator) :
    (it.oldNext).2 = it.advanceToNextActiveNote := rfl

/-- Calling the old `next` twice yields the same frequency twice: without
the cursor increment, the second advance finds the same slot again. -/
lemma oldNext_oldNext_fst (it : NotesOnBeatIterator) :
    ((it.oldNext).2.oldNext).1 = (it.oldNext).1 := by
  simp [NotesOnBeatIterator.oldNext, NotesOnBeatIterator.advanceToNextActiveNote,
    advanceIndex_idem]

/-- A `hasNext` query after an old `next` call answers exactly as before the
call: the old `next` consumes nothing. -/
lemma oldNext_hasNext (it : NotesOnBeatIterator) :
    ((it.oldNext).2).hasNext = it.hasNext := by
  rw [oldNext_snd, ← hasNext_snd, hasNext_hasNext]

/-- The reference list of active slots never repeats a slot. -/
lemma activeFrom_nodup (arr : List Bool) (i : ℕ) : (activeFrom arr i).Nodup :=
  List.Pairwise.imp (fun hlt => Nat.ne_of_lt hlt) (activeFrom_sorted arr i)

/-- A `hasNext` query answers true exactly when an active slot remains at or
after the cursor. -/
lemma hasNext_eq_not_isEmpty (it : NotesOnBeatIterator) :
    (it.hasNext).1 = !(activeFrom it.beatArray it.nextIndex).isEmpty := by
  cases h : (it.hasNext).1
  · have hlen := (hasNext_false_iff it).mp h
    rw [activeFrom_eq_skip it.beatArray
        (advanceIndex it.beatArray it.nextIndex - it.nextIndex)
        it.nextIndex (advanceIndex it.beatArray it.nextIndex) (le_refl _)
        (advanceIndex_le _ _) (advanceIndex_skipped _ _),
      activeFrom_of_length_le _ _ hlen]
    rfl
  · have hj : advanceIndex it.beatArray it.nextIndex < it.beatArray.length := by
      by_contra hc
      have h2 := (hasNext_false_iff it).mpr (Nat.not_lt.mp hc)
      rw [h] at h2
      simp at h2
    have hmem : advanceIndex it.beatArray it.nextIndex
        ∈ activeFrom it.beatArray it.nextIndex :=
      (activeFrom_mem _ _ _).mpr
        ⟨advanceIndex_le _ _, hj, advanceIndex_active _ _ hj⟩
    cases hae : activeFrom it.beatArray it.nextIndex with
    | nil =>
      rw [hae] at hmem
      simp at hmem
    | cons a l => rfl

/-- The note-duration getter reads `60 / bpm` seconds. -/
lemma noteDuration_eq (st : Scheduler) : st.noteDuration = 60 / st.bpm := by
  rw [Scheduler.noteDuration, div_mul_eq_mul_div, one_mul]

/-- The frequency of the flat slot written by `setNote (b, o, n)` is the
frequency `getNoteInOctave o n`, over any sequence sharing the tuning and the
octave base. -/
lemma slotFrequency_slotIndex (s : Sequence) (r : ℝ) (d : ℕ) (o : ℤ) (n : ℕ)
    (htun : s.tuning = EDOTuning r d) (hd : 1 ≤ d)
    (hlo : s.lowOctave ≤ o) (hn : n < d) :
    ∀ s2 : Sequence, s2.tuning = s.tuning → s2.lowOctave = s.lowOctave →
      slotFrequency s2 (s.slotIndex o n) = s.tuning.getNoteInOctave o n := by
  have hN : s.tuning.length = d := by
    rw [htun]
    exact EDOTuning_length r d
  intro s2 ht hl
  rw [slotFrequency, ht, hl, Sequence.slotIndex, hN]
  have hdiv : ((o - s.lowOctave).toNat * d + n) / d = (o - s.lowOctave).toNat := by
    rw [Nat.mul_comm, Nat.mul_add_div (by omega), Nat.div_eq_of_lt hn]
    omega
  have hmod : ((o - s.lowOctave).toNat * d + n) % d = n := by
    rw [Nat.mul_comm, Nat.mul_add_mod]
    exact Nat.mod_eq_of_lt hn
  rw [hdiv, hmod]
  congr 1
  rw [Int.toNat_of_nonneg (by omega)]
  ring

/-- The flat slot index of an in-range `(o, n)` lies inside a well-formed
row. -/
lemma slotIndex_lt_rowLength (s : Sequence) (r : ℝ) (d : ℕ) (b : ℕ) (o : ℤ) (n : ℕ)
    (htun : s.tuning = EDOTuning r d) (hwf : s.WF) (hb : b < s.seq.length)
    (hlo : s.lowOctave ≤ o) (hhi : o ≤ s.highOctave) (hn : n < d) :
    s.slotIndex o n < (s.seq.getD b []).length := by
  have hN : s.tuning.length = d := by
    rw [htun]
    exact EDOTuning_length r d
  have hrow_mem : s.seq.getD b [] ∈ s.seq := by
    rw [List.getD_eq_getElem _ _ hb]
    exact List.getElem_mem hb
  have hrowlen := hwf _ hrow_mem
  rw [hrowlen, Sequence.slotIndex, hN, Sequence.numOctaves]
  have ha : (o - s.lowOctave).toNat ≤ (s.highOctave - s.lowOctave).toNat :=
    Int.toNat_le_toNat (by omega)
  have hb2 : (s.highOctave - s.lowOctave + 1).toNat
      = (s.highOctave - s.lowOctave).toNat + 1 := by omega
  rw [hb2]
  calc (o - s.lowOctave).toNat * d + n
      < (o - s.lowOctave).toNat * d + d := by omega
    _ = ((o - s.lowOctave).toNat + 1) * d := by ring
    _ ≤ ((s.highOctave - s.lowOctave).toNat + 1) * d := Nat.mul_le_mul_right d (by omega)
    _ = d * ((s.highOctave - s.lowOctave).toNat + 1) := by ring

/-! ### Claim theorems -/

/-- C1.  For every scheduler state with `0 < bpm` and a nonempty sequence,
one invocation of `lookAheadAndSchedule` repeats the loop body while
`nextNoteTime < now + scheduleAheadTime`: it schedules one sound event at
time `nextNoteTime` for every frequency the beat iterator of
`currentNoteIndex` yields, then advances `nextNoteTime` by `60 / bpm` and
`currentNoteIndex` to `(currentNoteIndex + 1) % sequence.length`; with
`bpm = 120` each advance is exactly `0.5` seconds and with `bpm = 60`
exactly `1.0` second. -/
theorem lookAheadAndSchedule_drains_window (st : Scheduler) (now : ℚ)
    (hbpm : 0 < st.bpm) (hlen : 1 ≤ st.sequence.length) :
    (st.nextNoteTime < now + st.scheduleAheadTime →
      Scheduler.lookAheadAndSchedule now st =
        ((Scheduler.lookAheadAndSchedule now st.nextNote).1,
          ((collectNotes (st.sequence.getIteratorAtBeat st.currentNoteIndex)).map
            (fun f => st.scheduleNote f st.currentNoteIndex st.nextNoteTime))
            ++ (Scheduler.lookAheadAndSchedule now st.nextNote).2))
    ∧ (¬ st.nextNoteTime < now + st.scheduleAheadTime →
      Scheduler.lookAheadAndSchedule now st = (st, []))
    ∧ (∀ e ∈ (collectNotes (st.sequence.getIteratorAtBeat st.currentNoteIndex)).map
          (fun f => st.scheduleNote f st.currentNoteIndex st.nextNoteTime),
        e.start = st.nextNoteTime)
    ∧ st.nextNote.nextNoteTime = st.nextNoteTime + 60 / st.bpm
    ∧ st.nextNote.currentNoteIndex = (st.currentNoteIndex + 1) % st.sequence.length
    ∧ (st.bpm = 120 → st.nextNote.nextNoteTime = st.nextNoteTime + 1 / 2)
    ∧ (st.bpm = 60 → st.nextNote.nextNoteTime = st.nextNoteTime + 1) := by
  refine ⟨fun hcond => lookAheadAndSchedule_pos now st hbpm hcond,
    fun hcond => lookAheadAndSchedule_neg now st hcond, ?_, rfl, rfl, ?_, ?_⟩
  · intro e he
    obtain ⟨f, _, rfl⟩ := List.mem_map.mp he
    rfl
  · intro h
    show st.nextNoteTime + 60 / st.bpm = st.nextNoteTime + 1 / 2
    rw [h]
    norm_num
  · intro h
    show st.nextNoteTime + 60 / st.bpm = st.nextNoteTime + 1
    rw [h]
    norm_num

/-- Witness for C1 at the freshly constructed scheduler over the sample
sequence and audio clock 0. -/
theorem lookAheadAndSchedule_drains_window_witness :
    0 < sampleScheduler.bpm ∧ 1 ≤ sampleScheduler.sequence.length
    ∧ sampleScheduler.nextNote.nextNoteTime
        = sampleScheduler.nextNoteTime + 60 / sampleScheduler.bpm
    ∧ (sampleScheduler.bpm = 120 →
        sampleScheduler.nextNote.nextNoteTime = sampleScheduler.nextNoteTime + 1 / 2) :=
  ⟨by norm_num [sampleScheduler, Scheduler.new],
    by norm_num [sampleScheduler, sampleSequence, Scheduler.new, Sequence.new, Sequence.length],
    (lookAheadAndSchedule_drains_window sampleScheduler 0
      (by norm_num [sampleScheduler, Scheduler.new])
      (by norm_num [sampleScheduler, sampleSequence, Scheduler.new, Sequence.new,
        Sequence.length])).2.2.2.1,
    (lookAheadAndSchedule_drains_window sampleScheduler 0
      (by norm_num [sampleScheduler, Scheduler.new])
      (by norm_num [sampleScheduler, sampleSequence, Scheduler.new, Sequence.new,
        Sequence.length])).2.2.2.2.2.1⟩

/-- C2 (amended: scoped to the current src/js/main.js Scheduler; the older
copy src/unnamed/part_000 instead stops every tone at `scheduledTime + 0.1`
with its stored constant, see the counterexample).  Every call
`scheduleNote freq noteIndex scheduledTime` emits a tone started at
`scheduledTime` and stopped at `scheduledTime + 60 / bpm`, with `bpm` read
at the moment of the call.  A `SoundEvent` is an immutable value, so an
already-computed event is unaffected by any later `setBPM`; the third
conjunct shows a `setBPM b` call only changes the stop time of notes
scheduled after it (they use `60 / b`), for every later tempo `b`. -/
theorem scheduleNote_freezes_duration (st : Scheduler) (freq : ℝ)
    (noteIndex : ℕ) (scheduledTime : ℚ) (b : ℚ) :
    (st.scheduleNote freq noteIndex scheduledTime).start = scheduledTime
    ∧ (st.scheduleNote freq noteIndex scheduledTime).stop
        = scheduledTime + 60 / st.bpm
    ∧ ((st.setBPM b).scheduleNote freq noteIndex scheduledTime).stop
        = scheduledTime + 60 / b := by
  refine ⟨rfl, ?_, ?_⟩
  · show scheduledTime + st.noteDuration = scheduledTime + 60 / st.bpm
    rw [noteDuration_eq]
  · show scheduledTime + (st.setBPM b).noteDuration = scheduledTime + 60 / b
    rw [noteDuration_eq]
    rfl

/-- Counterexample to C2 as stated over the cited older Scheduler copy
(src/unnamed/part_000 lines 165-215): on a freshly constructed old
scheduler (`bpm = 120`), `scheduleNote 440 0 0` stops the tone at
`0 + 0.1` — the stored `noteDuration` constant — which is not
`0 + 60 / bpm = 0.5`. -/
theorem scheduleNote_freezes_duration_counterexample :
    ((OldScheduler.new sampleSequence).scheduleNote 440 0 0).stop
      ≠ 0 + 60 / (OldScheduler.new sampleSequence).bpm := by
  show (0 : ℚ) + 1 / 10 ≠ 0 + 60 / 120
  norm_num

/-- C3.  Over a sequence built on an EDO tuning (the only tuning the program
constructs), after `setNote (b, o, n)` a fresh iterator over beat `b` yields
the frequency `getNoteInOctave o n` (the frequency of the flat slot
`(o - lowOctave) * tuningLength + n`, recovered by the iterator's
`note = index % tuningLength`, `octave = lowOctave + index / tuningLength`
decomposition), and after `unsetNote (b, o, n)` a fresh iterator over beat
`b` no longer yields that slot's frequency. -/
theorem setNote_iterator_roundTrip
    (s : Sequence) (r : ℝ) (d : ℕ) (b : ℕ) (o : ℤ) (n : ℕ)
    (htun : s.tuning = EDOTuning r d) (hr : 0 < r) (hd : 1 ≤ d)
    (hwf : s.WF) (hb : b < s.seq.length)
    (hlo : s.lowOctave ≤ o) (hhi : o ≤ s.highOctave) (hn : n < d) :
    s.tuning.getNoteInOctave o n
        ∈ collectNotes ((s.setNote b o n).getIteratorAtBeat b)
    ∧ s.tuning.getNoteInOctave o n
        ∉ collectNotes ((s.unsetNote b o n).getIteratorAtBeat b) := by
  have hk₀lt := slotIndex_lt_rowLength s r d b o n htun hwf hb hlo hhi hn
  have hfreq := slotFrequency_slotIndex s r d o n htun hd hlo hn
  have hset_arr : ((s.setNote b o n).getIteratorAtBeat b).beatArray
      = (s.seq.getD b []).set (s.slotIndex o n) true :=
    getD_set_self_list s.seq b _ hb
  have hunset_arr : ((s.unsetNote b o n).getIteratorAtBeat b).beatArray
      = (s.seq.getD b []).set (s.slotIndex o n) false :=
    getD_set_self_list s.seq b _ hb
  constructor
  · rw [collectNotes_eq]
    apply List.mem_map.mpr
    refine ⟨s.slotIndex o n, ?_, ?_⟩
    · rw [activeFrom_mem]
      refine ⟨Nat.zero_le _, ?_, ?_⟩
      · rw [hset_arr, List.length_set]
        exact hk₀lt
      · rw [hset_arr]
        exact getD_set_self_row _ _ _ hk₀lt
    · exact hfreq (s.setNote b o n) rfl rfl
  · rw [collectNotes_eq]
    intro hmem
    obtain ⟨j, hj, hfj⟩ := List.mem_map.mp hmem
    obtain ⟨_, _, hact⟩ := (activeFrom_mem _ _ _).mp hj
    have hjk : j ≠ s.slotIndex o n := by
      intro heq
      rw [heq, hunset_arr, getD_set_self_row _ _ _ hk₀lt] at hact
      exact Bool.false_ne_true hact
    have hinj := slotFrequency_injective (s.unsetNote b o n) r d htun hr hd
    exact hjk (hinj (hfj.trans (hfreq (s.unsetNote b o n) rfl rfl).symm))

/-- Witness for C3 at the sample 12-EDO sequence, `(b, o, n) = (0, 3, 0)`. -/
theorem setNote_iterator_roundTrip_witness :
    sampleSequence.tuning.getNoteInOctave 3 0
        ∈ collectNotes ((sampleSequence.setNote 0 3 0).getIteratorAtBeat 0)
    ∧ sampleSequence.tuning.getNoteInOctave 3 0
        ∉ collectNotes ((sampleSequence.unsetNote 0 3 0).getIteratorAtBeat 0) :=
  setNote_iterator_roundTrip sampleSequence 440 12 0 3 0 rfl (by norm_num)
    (by norm_num)
    (by
      intro row hrow
      rw [sampleSequence, Sequence.new] at hrow
      simp only [List.mem_replicate] at hrow
      rw [hrow.2]
      simp [sampleSequence, sampleTuning, Sequence.new, Sequence.numOctaves,
        EDOTuning, Tuning.length])
    (by norm_num [sampleSequence, Sequence.new])
    (by norm_num [sampleSequence, Sequence.new])
    (by norm_num [sampleSequence, Sequence.new])
    (by norm_num)

/-- C4 (amended: scoped to the current src/js/main.js iterator, whose `next`
advances the cursor past the found slot; the older copy
src/unnamed/part_000 lacks the `this.nextIndex++` line, so its iterator
re-yields the found slot and never exhausts, see the counterexample).  A
full `while (hasNext) next` traversal of a fresh beat iterator visits
exactly the active slots of its beat row, in strictly increasing slot
order, never visiting a slot twice; the traversal leaves `hasNext` false and
a further `hasNext` call still answers false (and leaves the state it was
given); and a fresh iterator over a beat answers `hasNext` false exactly
when the beat has no active slot, in particular immediately when the row has
zero active slots. -/
theorem beatIterator_single_pass (s : Sequence) (beat : ℕ) :
    (runIterator (s.getIteratorAtBeat beat)).1
        = activeFrom (s.getIteratorAtBeat beat).beatArray 0
    ∧ List.Sorted (· < ·) ((runIterator (s.getIteratorAtBeat beat)).1)
    ∧ ((runIterator (s.getIteratorAtBeat beat)).1).Nodup
    ∧ (((runIterator (s.getIteratorAtBeat beat)).2).hasNext).1 = false
    ∧ ((((runIterator (s.getIteratorAtBeat beat)).2).hasNext).2.hasNext).1 = false
    ∧ ((s.getIteratorAtBeat beat).hasNext).1
        = !(activeFrom (s.getIteratorAtBeat beat).beatArray 0).isEmpty := by
  obtain ⟨h1, _, _, h4⟩ := runIterator_spec (s.getIteratorAtBeat beat)
  refine ⟨h1, ?_, ?_, h4, ?_, ?_⟩
  · rw [h1]
    exact activeFrom_sorted _ _
  · rw [h1]
    exact activeFrom_nodup _ _
  · rw [hasNext_hasNext]
    exact h4
  · exact hasNext_eq_not_isEmpty (s.getIteratorAtBeat beat)

/-- Counterexample to C4 as stated over the cited older iterator copy
(src/unnamed/part_000 lines 149-155): on a beat whose only active slot is
slot 0, after one old `next` call has consumed that slot, `hasNext` still
answers true, a second old `next` call yields the same frequency again, and
the cursor has not advanced at all — refuting "advances the cursor past the
found slot", "never yields the same slot twice" and "hasNext becomes
permanently false once all active slots have been consumed". -/
theorem beatIterator_single_pass_counterexample :
    (((sampleActiveIterator.oldNext).2).hasNext).1 = true
    ∧ ((sampleActiveIterator.oldNext).2.oldNext).1 = (sampleActiveIterator.oldNext).1
    ∧ ((sampleActiveIterator.oldNext).2).nextIndex = sampleActiveIterator.nextIndex := by
  have harr : sampleActiveIterator.beatArray = (List.replicate 24 false).set 0 true := rfl
  have h1 : sampleActiveIterator.nextIndex < sampleActiveIterator.beatArray.length := by
    rw [harr]
    show (0 : ℕ) < 24
    norm_num
  have h2 : sampleActiveIterator.beatArray.getD sampleActiveIterator.nextIndex false
      = true := by
    rw [harr]
    show ((List.replicate 24 false).set 0 true).getD 0 false = true
    decide
  have hadv : advanceIndex sampleActiveIterator.beatArray sampleActiveIterator.nextIndex
      = sampleActiveIterator.nextIndex := by
    rw [advanceIndex, dif_pos h1, if_pos h2]
  refine ⟨?_, oldNext_oldNext_fst sampleActiveIterator, ?_⟩
  · rw [oldNext_hasNext, hasNext_true_iff, hadv]
    exact h1
  · show sampleActiveIterator.advanceToNextActiveNote.nextIndex
      = sampleActiveIterator.nextIndex
    exact hadv

/-- C5.  `EDOTuning referencePitch divisions` stores exactly `divisions`
pitches with `pitches[i] = referencePitch * (2 ^ (1 / divisions)) ^ i`;
`getNote 0` is the reference pitch, and ratio compounding gives
`getNoteInOctave 5 0 = 2 * getNoteInOctave 4 0`. -/
theorem edoTuning_pitch_table (r : ℝ) (d : ℕ) (hd : 1 ≤ d) (hr : 0 < r) :
    (EDOTuning r d).pitches.length = d
    ∧ (∀ i < d, (EDOTuning r d).pitches.getD i 0
        = r * ((2 : ℝ) ^ ((1 : ℝ) / (d : ℝ))) ^ i)
    ∧ (EDOTuning r d).getNote 0 = r
    ∧ (EDOTuning r d).getNoteInOctave 5 0 = 2 * (EDOTuning r d).getNoteInOctave 4 0 := by
  refine ⟨by simp [EDOTuning], ?_, ?_, ?_⟩
  · intro i hi
    rw [EDOTuning_getD r d i hi, EDOTuning.ratio]
  · rw [EDOTuning_getNote r d 0 (by omega), pow_zero, mul_one]
  · rw [Tuning.getNoteInOctave, Tuning.getNoteInOctave]
    norm_num

/-- Witness for C5 at the sample parameters 440 Hz, 12 divisions. -/
theorem edoTuning_pitch_table_witness :
    (EDOTuning 440 12).pitches.length = 12
    ∧ (EDOTuning 440 12).getNote 0 = 440
    ∧ (EDOTuning 440 12).getNoteInOctave 5 0 = 2 * (EDOTuning 440 12).getNoteInOctave 4 0 :=
  ⟨(edoTuning_pitch_table 440 12 (by norm_num) (by norm_num)).1,
    (edoTuning_pitch_table 440 12 (by norm_num) (by norm_num)).2.2.1,
    (edoTuning_pitch_table 440 12 (by norm_num) (by norm_num)).2.2.2⟩

/-- C6.  With `0 < bpm` (and a nonempty sequence) the drain loop of one
`lookAheadAndSchedule` invocation terminates with its own loop condition
false — `nextNoteTime` has been pushed past `now + scheduleAheadTime`, which
the loop never changes; and for `bpm ≤ 0` the per-iteration increment
`60 / bpm` is non-positive, so the advance stalls or reverses instead of
progressing. -/
theorem drain_loop_terminates (st : Scheduler) (now : ℚ)
    (hbpm : 0 < st.bpm) (hlen : 1 ≤ st.sequence.length) :
    ¬ ((Scheduler.lookAheadAndSchedule now st).1.nextNoteTime
        < now + (Scheduler.lookAheadAndSchedule now st).1.scheduleAheadTime)
    ∧ (Scheduler.lookAheadAndSchedule now st).1.scheduleAheadTime = st.scheduleAheadTime
    ∧ (∀ b : ℚ, b ≤ 0 → (st.setBPM b).nextNote.nextNoteTime ≤ st.nextNoteTime) := by
  refine ⟨lookAheadAux_final now _ st hbpm (le_refl _),
    (lookAheadAux_preserves now _ st).1, ?_⟩
  intro b hb
  show st.nextNoteTime + 60 / b ≤ st.nextNoteTime
  have hdiv : 60 / b ≤ 0 := by
    rcases lt_or_eq_of_le hb with h | h
    · exact le_of_lt (div_neg_of_pos_of_neg (by norm_num) h)
    · rw [h, div_zero]
  linarith

/-- Witness for C6 at the freshly constructed sample scheduler, clock 0. -/
theorem drain_loop_terminates_witness :
    0 < sampleScheduler.bpm ∧ 1 ≤ sampleScheduler.sequence.length
    ∧ ¬ ((Scheduler.lookAheadAndSchedule 0 sampleScheduler).1.nextNoteTime
        < 0 + (Scheduler.lookAheadAndSchedule 0 sampleScheduler).1.scheduleAheadTime) :=
  ⟨by norm_num [sampleScheduler, Scheduler.new],
    by norm_num [sampleScheduler, sampleSequence, Scheduler.new, Sequence.new,
      Sequence.length],
    (drain_loop_terminates sampleScheduler 0
      (by norm_num [sampleScheduler, Scheduler.new])
      (by norm_num [sampleScheduler, sampleSequence, Scheduler.new, Sequence.new,
        Sequence.length])).1⟩

/-- C7.  `getNoteInOctave` is multiplicative in the octave:
`getNoteInOctave (o + 1) n = 2 * getNoteInOctave o n` for every tuning,
integer octave and in-range note index.  In this embedding the getter is a
pure function of the tuning, so no tuning state can change. -/
theorem getNoteInOctave_octave_doubling (t : Tuning) (o : ℤ) (n : ℕ)
    (hn : n < t.length) :
    t.getNoteInOctave (o + 1) n = 2 * t.getNoteInOctave o n := by
  rw [Tuning.getNoteInOctave, Tuning.getNoteInOctave]
  have hz : (2 : ℝ) ^ (o + 1 - 4) = 2 * (2 : ℝ) ^ (o - 4) := by
    rw [show o + 1 - 4 = o - 4 + 1 by ring, zpow_add_one₀ (by norm_num : (2 : ℝ) ≠ 0)]
    ring
  rw [hz]
  ring

/-- Witness for C7 at the sample tuning, octave 4, note 0. -/
theorem getNoteInOctave_octave_doubling_witness :
    0 < sampleTuning.length
    ∧ sampleTuning.getNoteInOctave 5 0 = 2 * sampleTuning.getNoteInOctave 4 0 :=
  ⟨by norm_num [sampleTuning, EDOTuning, Tuning.length],
    getNoteInOctave_octave_doubling sampleTuning 4 0
      (by norm_num [sampleTuning, EDOTuning, Tuning.length])⟩

/-- C8.  Evaluation of the `EDOTuning` constructor at `divisions = 0`: no
error is raised anywhere — the pitch loop runs zero times and the
constructor returns a degenerate tuning with an empty pitch table (in the
source, `ratio` is additionally the non-finite `Math.pow(2, 1 / 0)`).  This
contradicts the spec's requirement that `divisions = 0` be rejected as a
construction error. -/
theorem edoTuning_zero_divisions_degenerate :
    (EDOTuning 440 0).pitches = [] ∧ (EDOTuning 440 0).length = 0 :=
  ⟨by simp [EDOTuning], by simp [EDOTuning, Tuning.length]⟩

/-- C9.  `setBPM x` stores `x` and `setWaveform w` stores `w` unconditionally
(no validation in the scheduler; over the rational tempo model every
argument, positive or not, is stored verbatim), and neither mutator touches
any other scheduler field. -/
theorem setBPM_setWaveform_frame (st : Scheduler) (x : ℚ) (w : String) :
    (st.setBPM x).bpm = x
    ∧ (st.setWaveform w).waveform = w
    ∧ (st.setBPM x).currentNoteIndex = st.currentNoteIndex
    ∧ (st.setBPM x).nextNoteTime = st.nextNoteTime
    ∧ (st.setBPM x).scheduleAheadTime = st.scheduleAheadTime
    ∧ (st.setBPM x).lookAheadAndSchedulePeriod = st.lookAheadAndSchedulePeriod
    ∧ (st.setBPM x).sequence = st.sequence
    ∧ (st.setBPM x).waveform = st.waveform
    ∧ (st.setBPM x).timerID = st.timerID
    ∧ (st.setWaveform w).currentNoteIndex = st.currentNoteIndex
    ∧ (st.setWaveform w).nextNoteTime = st.nextNoteTime
    ∧ (st.setWaveform w).scheduleAheadTime = st.scheduleAheadTime
    ∧ (st.setWaveform w).lookAheadAndSchedulePeriod = st.lookAheadAndSchedulePeriod
    ∧ (st.setWaveform w).sequence = st.sequence
    ∧ (st.setWaveform w).bpm = st.bpm
    ∧ (st.setWaveform w).timerID = st.timerID :=
  ⟨rfl, rfl, rfl, rfl, rfl, rfl, rfl, rfl, rfl, rfl, rfl, rfl, rfl, rfl, rfl, rfl⟩

/-- C10 (amended: scoped to the current src/js/main.js constructor; the
older constructor in src/unnamed/part_000 sets the same numeric defaults
but never assigns `waveform` — the property is `undefined`, "sine" being
hardcoded inside its `scheduleNote` — and additionally stores
`noteDuration = 0.1`, see the counterexample).  A freshly constructed
scheduler starts at beat 0, audio time 0, 120 bpm, sine waveform, a
0.1-second look-ahead horizon, a 25-millisecond poll period and no pending
timer, referencing the given sequence. -/
theorem scheduler_constructor_defaults (s : Sequence) :
    (Scheduler.new s).currentNoteIndex = 0
    ∧ (Scheduler.new s).nextNoteTime = 0
    ∧ (Scheduler.new s).bpm = 120
    ∧ (Scheduler.new s).waveform = "sine"
    ∧ (Scheduler.new s).scheduleAheadTime = 1 / 10
    ∧ (Scheduler.new s).lookAheadAndSchedulePeriod = 25
    ∧ (Scheduler.new s).timerID = none
    ∧ (Scheduler.new s).sequence = s :=
  ⟨rfl, rfl, rfl, rfl, rfl, rfl, rfl, rfl⟩

/-- Counterexample to C10 as stated over the cited older constructor
(src/unnamed/part_000 lines 165-182): the freshly constructed old scheduler
has no waveform — the constructor never assigns the property (modelled as
`none`), so its start state does not satisfy `waveform = "sine"`. -/
theorem scheduler_constructor_defaults_counterexample :
    (OldScheduler.new sampleSequence).waveform ≠ some "sine" := by
  show (none : Option String) ≠ some "sine"
  simp

end MicrotonalSequencer
